import Mathlib

/-!
Verification of the proximity-chat relay (main.go).

The Go program bridges a Tile38 geofence event stream to websocket
clients.  We shallowly embed the parts of the program the claims are
about:

* the startup props map and channel names built in main,
* the psubscribe receive loop and its routing of message events,
* the onOpen / onClose lifecycle handlers,
* the connectedClients query aggregator,
* the chat-message handler.

The external Tile38 service is modelled as an opaque backend supplying
the query results the code consumes; JSON payloads are modelled as
association lists of top-level fields (the only JSON operation the relay
performs is sjson setting one top-level field / one fixed path).
-/

namespace ProximityChat

/-! ## Go string helpers

The routing code uses `strings.Contains` and `strings.Split`.  We embed
them over the character list of a string, following the Go
specification of those functions (split on every occurrence of a
non-empty separator; containment of a contiguous substring). -/

/-- Go strings.HasPrefix on character lists: the first list is a prefix
of the second. -/
def hasPre : List Char → List Char → Bool
  | [], _ => true
  | _ :: _, [] => false
  | c :: cs, d :: ds => c = d && hasPre cs ds

/-- Go strings.Contains on character lists: the first argument is the
haystack, the second the needle. -/
def hasSub (sub : List Char) : List Char → Bool
  | [] => sub.isEmpty
  | d :: ds => hasPre sub (d :: ds) || hasSub sub ds

/-- Go strings.Contains(s, sub). -/
def containsStr (s sub : String) : Bool :=
  hasSub sub.data s.data

/-- Go strings.Split with a one-character separator, on character
lists: split on every occurrence of the separator. -/
def splitChar (sep : Char) : List Char → List (List Char)
  | [] => [[]]
  | c :: rest =>
    if c = sep then [] :: splitChar sep rest
    else
      match splitChar sep rest with
      | [] => [[c]]
      | h :: t => (c :: h) :: t

/-- Go strings.Split(s, sep) for a one-character separator. -/
def goSplit (s : String) (sep : Char) : List String :=
  (splitChar sep s.data).map fun cs => String.mk cs

/-! ## JSON payload model

Event payloads are JSON objects; the relay only ever rewrites one
top-level field (`properties`, via sjson.SetRaw).  We model a payload as
an association list from top-level field name to raw serialized
value. -/

/-- A JSON object payload: top-level fields with raw serialized values. -/
abbrev Json := List (String × String)

/-- sjson.SetRaw(msg, key, v): replace the value of an existing
top-level field, or append the field if absent. -/
def setRaw (j : Json) (key v : String) : Json :=
  if (j.lookup key).isSome then
    j.map fun kv => if kv.1 = key then (key, v) else kv
  else
    j ++ [(key, v)]

/-! ## Startup state built in main -/

/-- The fixed roaming radius (const dist = 100). -/
def dist : Nat := 100

/-- The static places configured at startup in main. -/
def placeNames : List String := ["convention-center", "hyatt-regency"]

/-- The props map built in main: for each place name the serialized
`properties` member of its fixture file (here supplied by the function
readProps standing for gjson.GetBytes of the fixture).  Note the map is
keyed by the bare place name. -/
def propsMap (readProps : String → String) : List (String × String) :=
  placeNames.map fun pl => (pl, readProps pl)

/-- The geofence channel main creates for a place: "place:" ++ name. -/
def placeChan (pl : String) : String := "place:" ++ pl

/-- The channel patterns psubscribe subscribes to. -/
def subscribePatterns : List String := ["viewport:*", "roamchan", "place:*"]

/-! ## The subscription relay (psubscribe)

The registry (srv.Conns) is modelled as the list of registered
connection IDs; a delivery is a pair of connection ID and payload. -/

/-- The decoration step of psubscribe: if the props map has an entry
under the event's channel name, overwrite the payload's `properties`
field with it, otherwise leave the payload unchanged. -/
def decorate (props : List (String × String)) (channel : String) (msg : Json) : Json :=
  match props.lookup channel with
  | some p => setRaw msg "properties" p
  | none => msg

/-- The routing of one redis.Message by psubscribe: decorate, then
either send to the single connection named after the colon in the
channel name (when the channel contains "viewport"), or send one copy
to every registered connection. -/
def routeMessage (props : List (String × String)) (registry : List String)
    (channel : String) (data : Json) : List (String × Json) :=
  let msg := decorate props channel data
  if containsStr channel "viewport" then
    let target := (goSplit channel ':').getD 1 ""
    if target ∈ registry then [(target, msg)] else []
  else
    registry.filterMap fun i => if i ∈ registry then some (i, msg) else none

/-- One item returned by psc.Receive(): a message event or an error
value.  The fatal flag records whether the error is connection-fatal
(the receive loop itself never inspects it, faithfully to the code,
which handles every error alike). -/
inductive RecvItem where
  | msg (channel : String) (data : Json)
  | err (fatal : Bool)
deriving DecidableEq, Repr

/-- The psubscribe receive loop over a stream of received items: a
message event is routed, an error is logged and the loop continues with
the next item (the `case error:` branch is `log; continue`). -/
def receiveLoop (props : List (String × String)) (registry : List String) :
    List RecvItem → List (String × Json)
  | [] => []
  | RecvItem.msg ch d :: rest =>
      routeMessage props registry ch d ++ receiveLoop props registry rest
  | RecvItem.err _ :: rest => receiveLoop props registry rest

/-! ## onOpen

onOpen first sends the client its connection ID, then issues a SCAN of
the places collection and, on success, sends each place object.  The
redis reply is modelled by a small RESP value type, with the
redis.Values / redis.ByteSlices conversions the code performs. -/

/-- A redis reply value, as far as this program consumes it. -/
inductive RVal where
  | str (s : String)
  | int (n : Int)
  | arr (vs : List RVal)

/-- redigo redis.Values: succeed on an array reply, fail otherwise. -/
def toValues : RVal → Except String (List RVal)
  | RVal.arr vs => Except.ok vs
  | _ => Except.error "unexpected type for Values"

/-- redigo redis.ByteSlices: an array whose elements are all bulk
strings, returned as strings. -/
def toByteSlices : RVal → Except String (List String)
  | RVal.arr vs =>
      vs.mapM fun v =>
        match v with
        | RVal.str s => Except.ok s
        | _ => Except.error "unexpected element type"
  | _ => Except.error "unexpected type for ByteSlices"

/-- The identity announcement onOpen sends first. -/
def idMsg (connID : String) : String :=
  "\x7b\"type\":\"ID\",\"id\":\"" ++ connID ++ "\"\x7d"

/-- The sequence of sends onOpen performs on one connection, given the
reply of SCAN places (or its error).  The ID message goes out first;
a failed SCAN (or non-array reply) is logged and nothing further is
sent; otherwise each key/value pair of the reply's second element
produces one send of the object (kv index 1). -/
def onOpenSends (connID : String) (reply : Except String RVal) : List String :=
  idMsg connID ::
    match reply.bind toValues with
    | Except.error _ => []
    | Except.ok places =>
      if places.length > 1 then
        let ps := match toValues (places.getD 1 (RVal.arr [])) with
          | Except.ok vs => vs
          | Except.error _ => []
        ps.map fun p =>
          match toByteSlices p with
          | Except.ok kv => kv.getD 1 ""
          | Except.error _ => ""
      else []

/-- The shape of a successful Tile38 SCAN reply: a cursor and an array
of [id, object] pairs. -/
def scanReply (pairs : List (String × String)) : RVal :=
  RVal.arr [RVal.str "0", RVal.arr (pairs.map fun p => RVal.arr [RVal.str p.1, RVal.str p.2])]

/-! ## onClose

onClose issues DELCHAN on the connection's viewport channel and DEL of
its person record.  We model the backend-resident state the two
commands touch; both commands are no-ops (reply 0, not an error) when
the target is absent. -/

/-- The Tile38-resident state the lifecycle handlers touch: declared
channels and the people collection, each keyed by name/ID. -/
structure Store where
  chans : List (String × String)
  people : List (String × String)
deriving DecidableEq, Repr

/-- Deleting a key from a keyed collection (DEL / DELCHAN): removes
every entry under the key, a no-op if absent. -/
def delKey (l : List (String × String)) (k : String) : List (String × String) :=
  l.filter fun kv => kv.1 ≠ k

/-- The onClose teardown: DELCHAN "viewport:"++connID, DEL people connID. -/
def onCloseRun (connID : String) (s : Store) : Store :=
  { chans := delKey s.chans ("viewport:" ++ connID)
    people := delKey s.people connID }

/-! ## The query aggregator (connectedClients)

Tile38 is external; we model it as the three query results the
aggregator consumes, each fallible.  The idMap built by the Go code is
an insertion-ordered association list from person ID to its
accumulated labels. -/

/-- The backend queries connectedClients issues: INTERSECTS places at a
point, INTERSECTS people within a stored place, NEARBY people of a
point within the roaming radius.  Each returns IDs or an error. -/
structure Backend where
  intersectsPlaces : Float → Float → Except String (List String)
  intersectsPeopleIn : String → Except String (List String)
  nearbyPeople : Float → Float → Except String (List String)

/-- The idMap: person ID to the list of labels accumulated so far. -/
abbrev IdMap := List (String × List String)

/-- Lookup in an idMap. -/
def lookupA : IdMap → String → Option (List String)
  | [], _ => none
  | (k, ls) :: rest, v => if k = v then some ls else lookupA rest v

/-- idMap[v] = append(idMap[v], lbl): append one label to v's entry,
creating the entry if absent. -/
def appendLabel : IdMap → String → String → IdMap
  | [], v, lbl => [(v, [lbl])]
  | (k, ls) :: rest, v, lbl =>
    if k = v then (k, ls ++ [lbl]) :: rest
    else (k, ls) :: appendLabel rest v lbl

/-- The inner loop over one query's returned person IDs, appending the
same label for each. -/
def addAll (m : IdMap) (ppl : List String) (lbl : String) : IdMap :=
  ppl.foldl (fun acc v => appendLabel acc v lbl) m

/-- The loop over the matched place IDs: for each place, query the
people in it (aborting the whole resolution on error) and append that
place's ID as a label for each person found. -/
def regionLoop (b : Backend) : List String → IdMap → Except String IdMap
  | [], m => Except.ok m
  | pid :: rest, m =>
    match b.intersectsPeopleIn pid with
    | Except.error e => Except.error e
    | Except.ok ppl => regionLoop b rest (addAll m ppl pid)

/-- connectedClients(x, y): intersect the places with the point, then
for each matched place collect its people under the place's label, then
collect the nearby people under the label "roaming"; any query error
aborts the resolution. -/
def connectedClients (b : Backend) (x y : Float) : Except String IdMap :=
  match b.intersectsPlaces x y with
  | Except.error e => Except.error e
  | Except.ok placeIDs =>
    match regionLoop b placeIDs [] with
    | Except.error e => Except.error e
    | Except.ok m =>
      match b.nearbyPeople x y with
      | Except.error e => Except.error e
      | Except.ok nearby => Except.ok (addAll m nearby "roaming")

/-! ## The chat-message handler (message) -/

/-- An inbound chat message: its raw payload plus the two coordinates
the handler extracts from feature.geometry.coordinates. -/
structure ChatMsg where
  raw : String
  coord0 : Float
  coord1 : Float

/-- One chat delivery: the recipient's connection ID and the original
payload re-serialized with the recipient's labels set at
feature.properties.via (modelled structurally as the base payload plus
the injected via list). -/
structure ChatSend where
  cid : String
  base : String
  via : List String
deriving DecidableEq, Repr

/-- The message handler: resolve recipients at the message coordinates;
on error log and send nothing; otherwise send to each resolved
connection still present in the registry one copy of the payload with
its labels injected as via. -/
def message (b : Backend) (registry : List String) (m : ChatMsg) : List ChatSend :=
  match connectedClients b m.coord0 m.coord1 with
  | Except.error _ => []
  | Except.ok cc =>
      cc.filterMap fun p =>
        if p.1 ∈ registry then some (ChatSend.mk p.1 m.raw p.2) else none

/-! ## Characterization helpers and witness fixtures -/

/-- An accumulated label list as an idMap entry: absent when empty. -/
def toOpt (l : List String) : Option (List String) :=
  if l = [] then none else some l

/-- Appending labels to an optional entry: creates the entry when
labels arrive on an absent one. -/
def optApp (o : Option (List String)) (ls : List String) : Option (List String) :=
  match o with
  | none => toOpt ls
  | some cur => some (cur ++ ls)

/-- The region labels a person accumulates: for each matched place, in
order, one copy of the place's ID per occurrence of the person in that
place's people query. -/
def regionLabels (peopleOf : String → List String) (pls : List String) (v : String) :
    List String :=
  pls.flatMap fun pid => List.replicate ((peopleOf pid).count v) pid

/-- A concrete backend: one matched place containing p1 and p2, with p2
and p3 within roaming distance. -/
def bRegion : Backend :=
  ⟨fun _ _ => Except.ok ["convention-center"],
   fun _ => Except.ok ["p1", "p2"],
   fun _ _ => Except.ok ["p2", "p3"]⟩

/-- A concrete backend with no matches anywhere. -/
def bEmpty : Backend :=
  ⟨fun _ _ => Except.ok [], fun _ => Except.ok [], fun _ _ => Except.ok []⟩

/-- A concrete backend whose place query fails. -/
def bErrPlaces : Backend :=
  ⟨fun _ _ => Except.error "e1", fun _ => Except.ok [], fun _ _ => Except.ok []⟩

/-- A concrete backend whose people-in-place query fails. -/
def bErrPeople : Backend :=
  ⟨fun _ _ => Except.ok ["cc"], fun _ => Except.error "e2", fun _ _ => Except.ok []⟩

/-- A concrete backend whose nearby query fails. -/
def bErrNearby : Backend :=
  ⟨fun _ _ => Except.ok ["cc"], fun _ => Except.ok ["p"], fun _ _ => Except.error "e3"⟩

/-- A concrete backend resolving two roaming users u1 and u2. -/
def bRoamTwo : Backend :=
  ⟨fun _ _ => Except.ok [], fun _ => Except.ok [], fun _ _ => Except.ok ["u1", "u2"]⟩

/-! ## Lemmas about the Go string helpers -/

theorem hasPre_self_append (l r : List Char) : hasPre l (l ++ r) = true := by
  induction l with
  | nil => rfl
  | cons c cs ih => simp [hasPre, ih]

theorem hasSub_of_hasPre {sub l : List Char} (h : hasPre sub l = true) :
    hasSub sub l = true := by
  cases l with
  | nil =>
    cases sub with
    | nil => rfl
    | cons c cs => simp [hasPre] at h
  | cons d ds => simp [hasSub, h]

theorem containsStr_viewport_chan (id : String) :
    containsStr ("viewport:" ++ id) "viewport" = true := by
  have hdata : ("viewport:" ++ id).data = "viewport".data ++ (':' :: id.data) := by
    rw [String.data_append]
    have h1 : "viewport:".data = "viewport".data ++ [':'] := by decide
    rw [h1, List.append_assoc]
    rfl
  unfold containsStr
  rw [hdata]
  exact hasSub_of_hasPre (hasPre_self_append _ _)

theorem splitChar_no_sep (sep : Char) (l : List Char) (h : ∀ c ∈ l, c ≠ sep) :
    splitChar sep l = [l] := by
  induction l with
  | nil => rfl
  | cons c cs ih =>
    have hc : c ≠ sep := h c (List.mem_cons_self c cs)
    have ih' := ih fun d hd => h d (List.mem_cons_of_mem c hd)
    simp [splitChar, hc, ih']

theorem splitChar_append_sep (sep : Char) (l r : List Char) (h : ∀ c ∈ l, c ≠ sep) :
    splitChar sep (l ++ sep :: r) = l :: splitChar sep r := by
  induction l with
  | nil => simp [splitChar]
  | cons c cs ih =>
    have hc : c ≠ sep := h c (List.mem_cons_self c cs)
    have ih' := ih fun d hd => h d (List.mem_cons_of_mem c hd)
    simp [splitChar, hc, ih']

theorem goSplit_viewport_chan (id : String) (h : ':' ∉ id.data) :
    goSplit ("viewport:" ++ id) ':' = ["viewport", id] := by
  have hdata : ("viewport:" ++ id).data = "viewport".data ++ (':' :: id.data) := by
    rw [String.data_append]
    have h1 : "viewport:".data = "viewport".data ++ [':'] := by decide
    rw [h1, List.append_assoc]
    rfl
  have hv : ∀ c ∈ "viewport".data, c ≠ ':' := by decide
  have hid : ∀ c ∈ id.data, c ≠ ':' := fun c hc he => h (he ▸ hc)
  unfold goSplit
  rw [hdata, splitChar_append_sep _ _ _ hv, splitChar_no_sep _ _ hid]
  rfl

/-! ## Generic list lemmas for routing and delivery -/

theorem filterMap_all_some {α β : Type} (l : List α) (f : α → Option β) (g : α → β)
    (h : ∀ a ∈ l, f a = some (g a)) : l.filterMap f = l.map g := by
  induction l with
  | nil => rfl
  | cons a as ih =>
    have ha := h a (List.mem_cons_self a as)
    have ih' := ih fun b hb => h b (List.mem_cons_of_mem a hb)
    simp [List.filterMap_cons, ha, ih']

theorem filter_map_pair (d : Json) (i : String) :
    ∀ (l : List String), l.Nodup →
      ((l.map fun j => (j, d)).filter fun s => s.1 == i) =
        if i ∈ l then [(i, d)] else [] := by
  intro l
  induction l with
  | nil => intro _; rfl
  | cons a rest ih =>
    intro nd
    have nd' := List.nodup_cons.mp nd
    by_cases hai : a = i
    · have hnotmem : i ∉ rest := hai ▸ nd'.1
      have hrest : ((rest.map fun j => (j, d)).filter fun s => s.1 == i) = [] := by
        rw [ih nd'.2, if_neg hnotmem]
      simp [List.filter_cons, hai, hrest]
    · have hia : ¬i = a := fun h => hai h.symm
      have hstep : (((a :: rest).map fun j => (j, d)).filter fun s => s.1 == i) =
          (rest.map fun j => (j, d)).filter fun s => s.1 == i := by
        simp [List.filter_cons, hai]
      rw [hstep, ih nd'.2]
      simp [List.mem_cons, hia]

/-! ## Lemmas about the idMap accumulation -/

theorem optApp_nil (o : Option (List String)) : optApp o [] = o := by
  cases o with
  | none => rfl
  | some cur => simp [optApp]

theorem optApp_optApp (o : Option (List String)) (a b : List String) :
    optApp (optApp o a) b = optApp o (a ++ b) := by
  cases o with
  | some cur => simp [optApp]
  | none =>
    cases a with
    | nil => simp [optApp, toOpt]
    | cons x xs =>
      simp [optApp, toOpt]

theorem lookupA_appendLabel (m : IdMap) (v lbl w : String) :
    lookupA (appendLabel m v lbl) w =
      if w = v then optApp (lookupA m w) [lbl] else lookupA m w := by
  induction m with
  | nil =>
    by_cases hwv : w = v
    · simp [appendLabel, lookupA, hwv, optApp, toOpt]
    · have hvw : ¬v = w := fun h => hwv h.symm
      simp [appendLabel, lookupA, hwv, hvw]
  | cons kv rest ih =>
    obtain ⟨k, ls⟩ := kv
    by_cases hkv : k = v
    · by_cases hkw : k = w
      · have hwv : w = v := hkw ▸ hkv
        simp [appendLabel, lookupA, hkv, hkw, hwv, optApp]
      · have hvw : ¬v = w := fun h => hkw (hkv.trans h)
        have hwv : ¬w = v := fun h => hvw h.symm
        simp [appendLabel, lookupA, hkv, hkw, hwv, hvw]
    · by_cases hkw : k = w
      · have hwv : ¬w = v := fun h => hkv (hkw.trans h)
        simp [appendLabel, lookupA, hkv, hkw, hwv]
      · simp [appendLabel, lookupA, hkv, hkw, ih]

theorem lookupA_addAll (ppl : List String) (m : IdMap) (lbl w : String) :
    lookupA (addAll m ppl lbl) w =
      optApp (lookupA m w) (List.replicate (ppl.count w) lbl) := by
  induction ppl generalizing m with
  | nil => simp [addAll, List.foldl, optApp_nil]
  | cons p ps ih =>
    have hfold : addAll m (p :: ps) lbl = addAll (appendLabel m p lbl) ps lbl := rfl
    rw [hfold, ih, lookupA_appendLabel]
    by_cases hwp : w = p
    · rw [if_pos hwp, optApp_optApp, hwp, List.count_cons_self]
      rfl
    · rw [if_neg hwp]
      have hpw : ¬p = w := fun h => hwp h.symm
      have : (p :: ps).count w = ps.count w := by
        rw [List.count_cons]
        simp [hwp, hpw]
      rw [this]

theorem keys_appendLabel (m : IdMap) (v lbl : String) :
    (appendLabel m v lbl).map Prod.fst =
      if v ∈ m.map Prod.fst then m.map Prod.fst else m.map Prod.fst ++ [v] := by
  induction m with
  | nil => simp [appendLabel]
  | cons kv rest ih =>
    obtain ⟨k, ls⟩ := kv
    by_cases hkv : k = v
    · simp [appendLabel, hkv]
    · have hvk : ¬v = k := fun h => hkv h.symm
      by_cases hmem : v ∈ rest.map Prod.fst
      · simp [appendLabel, hkv, ih, hmem, List.mem_cons, hvk]
      · simp [appendLabel, hkv, ih, hmem, List.mem_cons, hvk]

theorem nodup_appendLabel (m : IdMap) (v lbl : String)
    (h : (m.map Prod.fst).Nodup) : ((appendLabel m v lbl).map Prod.fst).Nodup := by
  rw [keys_appendLabel]
  by_cases hmem : v ∈ m.map Prod.fst
  · rwa [if_pos hmem]
  · rw [if_neg hmem]
    simp [List.nodup_append, h, hmem]

theorem nodup_addAll (ppl : List String) (m : IdMap) (lbl : String)
    (h : (m.map Prod.fst).Nodup) : ((addAll m ppl lbl).map Prod.fst).Nodup := by
  induction ppl generalizing m with
  | nil => exact h
  | cons p ps ih => exact ih _ (nodup_appendLabel m p lbl h)

/-! ## Lemmas about the region loop and connectedClients -/

theorem regionLoop_ok (b : Backend) (peopleOf : String → List String) :
    ∀ (pls : List String) (m : IdMap),
      (∀ pid ∈ pls, b.intersectsPeopleIn pid = Except.ok (peopleOf pid)) →
      regionLoop b pls m =
        Except.ok (pls.foldl (fun acc pid => addAll acc (peopleOf pid) pid) m) := by
  intro pls
  induction pls with
  | nil => intro m _; rfl
  | cons pid rest ih =>
    intro m h
    have hpid := h pid (List.mem_cons_self pid rest)
    have hrest := fun q hq => h q (List.mem_cons_of_mem pid hq)
    simp [regionLoop, hpid, ih _ hrest, List.foldl]

theorem lookupA_regionFold (peopleOf : String → List String) :
    ∀ (pls : List String) (m : IdMap) (w : String),
      lookupA (pls.foldl (fun acc pid => addAll acc (peopleOf pid) pid) m) w =
        optApp (lookupA m w) (regionLabels peopleOf pls w) := by
  intro pls
  induction pls with
  | nil => intro m w; simp [regionLabels, optApp_nil]
  | cons pid rest ih =>
    intro m w
    have hfold : (pid :: rest).foldl (fun acc q => addAll acc (peopleOf q) q) m =
        rest.foldl (fun acc q => addAll acc (peopleOf q) q) (addAll m (peopleOf pid) pid) := rfl
    rw [hfold, ih, lookupA_addAll, optApp_optApp]
    have : regionLabels peopleOf (pid :: rest) w =
        List.replicate ((peopleOf pid).count w) pid ++ regionLabels peopleOf rest w := by
      simp [regionLabels]
    rw [this]

theorem nodup_regionFold (peopleOf : String → List String) :
    ∀ (pls : List String) (m : IdMap),
      (m.map Prod.fst).Nodup →
      (((pls.foldl (fun acc pid => addAll acc (peopleOf pid) pid) m).map Prod.fst)).Nodup := by
  intro pls
  induction pls with
  | nil => intro m h; exact h
  | cons pid rest ih => intro m h; exact ih _ (nodup_addAll _ _ _ h)

theorem regionLoop_nodup (b : Backend) :
    ∀ (pls : List String) (m m' : IdMap),
      regionLoop b pls m = Except.ok m' →
      (m.map Prod.fst).Nodup → (m'.map Prod.fst).Nodup := by
  intro pls
  induction pls with
  | nil =>
    intro m m' h hm
    cases h
    exact hm
  | cons pid rest ih =>
    intro m m' h hm
    revert h
    unfold regionLoop
    cases hq : b.intersectsPeopleIn pid with
    | error e => intro h; cases h
    | ok ppl =>
      intro h
      exact ih _ _ h (nodup_addAll _ _ _ hm)

theorem regionLoop_isOk (b : Backend) :
    ∀ (pls : List String) (m : IdMap),
      (∀ pid ∈ pls, ∃ l, b.intersectsPeopleIn pid = Except.ok l) →
      ∃ m', regionLoop b pls m = Except.ok m' := by
  intro pls
  induction pls with
  | nil => intro m _; exact ⟨m, rfl⟩
  | cons pid rest ih =>
    intro m h
    obtain ⟨l, hl⟩ := h pid (List.mem_cons_self pid rest)
    have hrest := fun q hq => h q (List.mem_cons_of_mem pid hq)
    obtain ⟨m', hm'⟩ := ih (addAll m l pid) hrest
    exact ⟨m', by simp [regionLoop, hl, hm']⟩

theorem regionLoop_error_at (b : Backend) (e : String) :
    ∀ (pre : List String) (pid : String) (post : List String) (m : IdMap),
      (∀ q ∈ pre, ∃ l, b.intersectsPeopleIn q = Except.ok l) →
      b.intersectsPeopleIn pid = Except.error e →
      regionLoop b (pre ++ pid :: post) m = Except.error e := by
  intro pre
  induction pre with
  | nil =>
    intro pid post m _ he
    simp [regionLoop, he]
  | cons q qs ih =>
    intro pid post m h he
    obtain ⟨l, hl⟩ := h q (List.mem_cons_self q qs)
    have hqs := fun r hr => h r (List.mem_cons_of_mem q hr)
    simp [regionLoop, hl, ih pid post _ hqs he]

theorem connectedClients_nodupKeys (b : Backend) (x y : Float) (m : IdMap)
    (h : connectedClients b x y = Except.ok m) : (m.map Prod.fst).Nodup := by
  unfold connectedClients at h
  split at h
  · cases h
  rename_i pls hp
  split at h
  · cases h
  rename_i m0 hr
  split at h
  · cases h
  rename_i nb hn
  cases h
  exact nodup_addAll nb m0 "roaming"
    (regionLoop_nodup b pls [] m0 hr (by simp))

/-! ## Lemmas about chat delivery -/

theorem filter_sends_not_mem (reg : List String) (raw : String) (cid : String) :
    ∀ (cc : IdMap), cid ∉ cc.map Prod.fst →
      (((cc.filterMap fun p =>
          if p.1 ∈ reg then some (ChatSend.mk p.1 raw p.2) else none).filter
        fun s => s.cid == cid)) = [] := by
  intro cc
  induction cc with
  | nil => intro _; rfl
  | cons kv rest ih =>
    intro h
    obtain ⟨k, ls⟩ := kv
    have hk : ¬k = cid := by
      intro he
      exact h (by simp [he])
    have hrest : cid ∉ rest.map Prod.fst := fun hm => h (by simp [hm])
    by_cases hreg : k ∈ reg
    · simp [List.filterMap_cons, hreg, List.filter_cons, hk, ih hrest]
    · simp [List.filterMap_cons, hreg, ih hrest]

theorem message_filter_core (reg : List String) (raw : String) :
    ∀ (cc : IdMap), (cc.map Prod.fst).Nodup →
      ∀ cid labels, (cid, labels) ∈ cc →
        (((cc.filterMap fun p =>
            if p.1 ∈ reg then some (ChatSend.mk p.1 raw p.2) else none).filter
          fun s => s.cid == cid)) =
          if cid ∈ reg then [ChatSend.mk cid raw labels] else [] := by
  intro cc
  induction cc with
  | nil => intro _ cid labels hmem; cases hmem
  | cons kv rest ih =>
    intro nd cid labels hmem
    obtain ⟨k, ls⟩ := kv
    have nd' := List.nodup_cons.mp nd
    rcases List.mem_cons.mp hmem with heq | htail
    · obtain ⟨rfl, rfl⟩ := Prod.mk.injEq .. ▸ heq
      have hnot : cid ∉ rest.map Prod.fst := nd'.1
      have hzero := filter_sends_not_mem reg raw cid rest hnot
      by_cases hreg : cid ∈ reg
      · simp [List.filterMap_cons, hreg, List.filter_cons, hzero]
      · simp [List.filterMap_cons, hreg, hzero]
    · have hcidmem : cid ∈ rest.map Prod.fst :=
        List.mem_map.mpr ⟨(cid, labels), htail, rfl⟩
      have hk : ¬k = cid := fun he => nd'.1 (he ▸ hcidmem)
      have htailres := ih nd'.2 cid labels htail
      by_cases hreg : k ∈ reg
      · simp [List.filterMap_cons, hreg, List.filter_cons, hk, htailres]
      · simp [List.filterMap_cons, hreg, htailres]

/-! ## Lemmas about onOpen and onClose -/

theorem scan_pairs_map (pairs : List (String × String)) :
    ((pairs.map fun p => RVal.arr [RVal.str p.1, RVal.str p.2]).map fun p =>
        match toByteSlices p with
        | Except.ok kv => kv.getD 1 ""
        | Except.error _ => "") = pairs.map Prod.snd := by
  induction pairs with
  | nil => rfl
  | cons p ps ih =>
    simp only [List.map_cons, ih]
    rfl

theorem lookup_delKey (l : List (String × String)) (k : String) :
    (delKey l k).lookup k = none := by
  induction l with
  | nil => rfl
  | cons kv rest ih =>
    obtain ⟨k1, v1⟩ := kv
    by_cases h : k1 = k
    · simpa [delKey, List.filter_cons, h] using ih
    · have hne : (k == k1) = false := by
        simp only [beq_eq_false_iff_ne, ne_eq]
        exact fun he => h he.symm
      simpa [delKey, List.filter_cons, List.lookup, h, hne] using ih

theorem delKey_idem (l : List (String × String)) (k : String) :
    delKey (delKey l k) k = delKey l k := by
  induction l with
  | nil => rfl
  | cons kv rest ih =>
    obtain ⟨k1, v1⟩ := kv
    by_cases h : k1 = k
    · simp only [delKey, List.filter_cons] at ih ⊢
      simp [h, ih]
    · simp only [delKey, List.filter_cons] at ih ⊢
      simp [h, ih]

/-! ## Lemmas for the no-match and abort paths of the aggregator -/

theorem foldl_addAll_empty :
    ∀ (pls : List String) (m : IdMap),
      pls.foldl (fun acc pid => addAll acc ((fun _ => ([] : List String)) pid) pid) m = m := by
  intro pls
  induction pls with
  | nil => intro m; rfl
  | cons p ps ih =>
    intro m
    simp only [List.foldl]
    exact ih m

/-! ## The claims -/

/-- C1: the claim says an inbound event on a place channel has its
payload's properties field overwritten with the place's cached
properties before delivery.  In the code this never happens: the props
map built in main is keyed by the bare place name, while the channel
the event arrives on is "place:" ++ name, so the lookup misses and the
payload is delivered unmodified.  This theorem evaluates the code at
the failing input: an event on channel place:convention-center with the
startup props map reaches the single registered client with its
properties field untouched, while the overwrite the claim describes
would have produced a different payload. -/
theorem claim_C1_place_decoration_dead :
    (propsMap fun _ => "P").lookup (placeChan "convention-center") = none ∧
    routeMessage (propsMap fun _ => "P") ["alice"] (placeChan "convention-center")
        [("properties", "old")] = [("alice", [("properties", "old")])] ∧
    setRaw [("properties", "old")] "properties" "P" = [("properties", "P")] := by
  refine ⟨rfl, ?_, rfl⟩
  rfl

/-- C2: the claim says error events are logged and the loop continues,
and that a connection-level fatal error ends the Subscribed state and
repeats the subscribe step.  The code's error branch is
log-and-continue unconditionally, so the receive loop also continues
past a fatal error: here a message arriving after a fatal error is
still routed by the same loop, i.e. the Subscribed state did not end
and psubscribe never returns to the resubscribe wrapper in main. -/
theorem claim_C2_fatal_error_not_terminal :
    receiveLoop [] ["alice"]
        [RecvItem.err true, RecvItem.msg "roamchan" [("k", "v")]] =
      [("alice", [("k", "v")])] ∧
    receiveLoop [] ["alice"] [RecvItem.err true] = [] := by
  exact ⟨rfl, rfl⟩

/-- C7: the on-disconnect teardown deletes the connection's viewport
channel and person record; running it twice equals running it once, and
after one run neither the viewport channel nor the person record is
present.  Absent targets are no-ops (DEL/DELCHAN reply 0, no error), so
teardown on a connection that never created state is safe. -/
theorem claim_C7_onclose_idempotent (connID : String) (s : Store) :
    onCloseRun connID (onCloseRun connID s) = onCloseRun connID s ∧
    (onCloseRun connID s).chans.lookup ("viewport:" ++ connID) = none ∧
    (onCloseRun connID s).people.lookup connID = none := by
  refine ⟨?_, lookup_delKey _ _, lookup_delKey _ _⟩
  simp [onCloseRun, delKey_idem]

/-- C8: on connect the handler sends the connection ID announcement
first, and on a well-formed SCAN reply then sends exactly one message
per returned place object, in reply order; for every reply shape the ID
announcement is the first send. -/
theorem claim_C8_onopen_id_then_places (connID : String) (pairs : List (String × String)) :
    onOpenSends connID (Except.ok (scanReply pairs)) =
      idMsg connID :: pairs.map Prod.snd ∧
    ∀ reply, (onOpenSends connID reply).head? = some (idMsg connID) := by
  constructor
  · exact congrArg (List.cons (idMsg connID)) (scan_pairs_map pairs)
  · intro reply
    rfl

/-- C4: a message event on a per-connection viewport channel
(viewport: followed by a connection ID, which for the transport's
opaque IDs contains no colon) is delivered to exactly the connection
named by the suffix when it is registered, and silently dropped when it
is not; no other connection receives it.  The props-map hypothesis
records that viewport channels carry no place decoration entry (true of
the startup props map, whose keys are bare place names). -/
theorem claim_C4_viewport_targeted (props : List (String × String))
    (registry : List String) (id : String) (d : Json)
    (hcolon : ':' ∉ id.data)
    (hprops : props.lookup ("viewport:" ++ id) = none) :
    routeMessage props registry ("viewport:" ++ id) d =
      if id ∈ registry then [(id, d)] else [] := by
  unfold routeMessage
  rw [containsStr_viewport_chan]
  simp only [if_true]
  rw [goSplit_viewport_chan id hcolon]
  have hdec : decorate props ("viewport:" ++ id) d = d := by
    simp [decorate, hprops]
  simp [hdec]

/-- C4 witness: a viewport event for the registered connection abc is
delivered to abc alone, with the payload unmodified. -/
theorem claim_C4_witness :
    routeMessage [] ["abc"] ("viewport:" ++ "abc") [("k", "v")] =
      [("abc", [("k", "v")])] := by
  have h := claim_C4_viewport_targeted [] ["abc"] "abc" [("k", "v")]
    (by decide) rfl
  simpa using h

/-- C5 counterexample: the claim quantifies over every channel not
matching the viewport pattern (roaming and place channels).  The
channel place:viewport does not match the pattern viewport:* (it does
not start with viewport:), so the claim requires every registered
connection — here alice and bob — to receive one copy; but the code
classifies by substring containment, treats this channel as targeted,
and delivers to nobody. -/
theorem claim_C5_counterexample :
    hasPre "viewport:".data "place:viewport".data = false ∧
    "alice" ∈ ["alice", "bob"] ∧
    routeMessage [] ["alice", "bob"] "place:viewport" [("k", "v")] = [] := by
  refine ⟨rfl, by decide, ?_⟩
  rfl

/-- C5 amended: for every message event on a channel that does not
contain the substring "viewport" (which covers the roaming channel and
every place channel the program creates), each connection in the
registry receives exactly one copy of the payload and no unregistered
connection receives any.  The props hypothesis pins the payload
delivered (the startup props map decorates no channel, per C1). -/
theorem claim_C5_broadcast_amended (props : List (String × String))
    (registry : List String) (channel : String) (d : Json)
    (hvp : containsStr channel "viewport" = false)
    (hnd : registry.Nodup)
    (hprops : props.lookup channel = none) :
    ∀ i, ((routeMessage props registry channel d).filter fun s => s.1 == i) =
      if i ∈ registry then [(i, d)] else [] := by
  intro i
  have hdec : decorate props channel d = d := by
    simp [decorate, hprops]
  have hroute : routeMessage props registry channel d =
      registry.map fun j => (j, d) := by
    unfold routeMessage
    rw [hvp]
    simp only [Bool.false_eq_true, if_false, hdec]
    exact filterMap_all_some registry _ _ fun a ha => by simp [ha]
  rw [hroute]
  exact filter_map_pair d i registry hnd

/-- C5 witness: a roaming event reaches the registered connection alice
exactly once with the payload unmodified. -/
theorem claim_C5_witness :
    ((routeMessage [] ["alice", "bob"] "roamchan" [("k", "v")]).filter
        fun s => s.1 == "alice") = [("alice", [("k", "v")])] := by
  have h := claim_C5_broadcast_amended [] ["alice", "bob"] "roamchan" [("k", "v")]
    (by decide) (by decide) rfl "alice"
  simpa using h

/-- C3: when every backend query succeeds, the aggregator's result is
the union of region-membership and roaming-proximity matches merged by
person ID: the result's keys are free of duplicates (one map entry per
person), and each person's label list is exactly their region labels,
in place-discovery order, followed by one "roaming" label per
occurrence in the nearby query — so a person matching both appears once
with both labels, regions before roaming. -/
theorem claim_C3_resolve_union (b : Backend) (x y : Float)
    (pls nb : List String) (peopleOf : String → List String)
    (hp : b.intersectsPlaces x y = Except.ok pls)
    (hIn : ∀ pid ∈ pls, b.intersectsPeopleIn pid = Except.ok (peopleOf pid))
    (hn : b.nearbyPeople x y = Except.ok nb) :
    ∃ m, connectedClients b x y = Except.ok m ∧
      (m.map Prod.fst).Nodup ∧
      ∀ v, lookupA m v =
        toOpt (regionLabels peopleOf pls v ++
          List.replicate (nb.count v) "roaming") := by
  have hr := regionLoop_ok b peopleOf pls [] hIn
  refine ⟨addAll (pls.foldl (fun acc pid => addAll acc (peopleOf pid) pid) []) nb
    "roaming", ?_, ?_, ?_⟩
  · simp only [connectedClients, hp, hr, hn]
  · exact nodup_addAll _ _ _ (nodup_regionFold peopleOf pls [] (by simp))
  · intro v
    rw [lookupA_addAll, lookupA_regionFold, optApp_optApp]
    rfl

/-- C3 witness: one matched region containing p1 and p2 while p2 and p3
roam nearby resolves to one entry per person, p2 getting the region
label before "roaming". -/
theorem claim_C3_witness :
    ∃ m, connectedClients bRegion 0 0 = Except.ok m ∧
      (m.map Prod.fst).Nodup ∧
      ∀ v, lookupA m v =
        toOpt (regionLabels (fun _ => ["p1", "p2"]) ["convention-center"] v ++
          List.replicate ((["p2", "p3"].count v)) "roaming") :=
  claim_C3_resolve_union bRegion 0 0 ["convention-center"] ["p2", "p3"]
    (fun _ => ["p1", "p2"]) rfl (fun _ _ => rfl) rfl

/-- C6: the aggregator returns an empty mapping, not an error, when no
region or roaming matches exist; and a failure of any backend lookup —
the place intersection, any people-in-place query, or the nearby
query — aborts the whole resolution with that error (an error carries
no partial mapping). -/
theorem claim_C6_empty_and_abort (b : Backend) (x y : Float) :
    (∀ pls, b.intersectsPlaces x y = Except.ok pls →
      (∀ pid ∈ pls, b.intersectsPeopleIn pid = Except.ok []) →
      b.nearbyPeople x y = Except.ok [] →
      connectedClients b x y = Except.ok []) ∧
    (∀ e, b.intersectsPlaces x y = Except.error e →
      connectedClients b x y = Except.error e) ∧
    (∀ pre pid post e, b.intersectsPlaces x y = Except.ok (pre ++ pid :: post) →
      (∀ q ∈ pre, ∃ l, b.intersectsPeopleIn q = Except.ok l) →
      b.intersectsPeopleIn pid = Except.error e →
      connectedClients b x y = Except.error e) ∧
    (∀ pls e, b.intersectsPlaces x y = Except.ok pls →
      (∀ pid ∈ pls, ∃ l, b.intersectsPeopleIn pid = Except.ok l) →
      b.nearbyPeople x y = Except.error e →
      connectedClients b x y = Except.error e) := by
  refine ⟨?_, ?_, ?_, ?_⟩
  · intro pls hp hin hn
    have hr := regionLoop_ok b (fun _ => []) pls [] hin
    rw [foldl_addAll_empty] at hr
    simp only [connectedClients, hp, hr, hn]
    rfl
  · intro e hp
    simp only [connectedClients, hp]
  · intro pre pid post e hp hpre hpid
    have hr := regionLoop_error_at b e pre pid post [] hpre hpid
    simp only [connectedClients, hp, hr]
  · intro pls e hp hin hn
    obtain ⟨m', hm'⟩ := regionLoop_isOk b pls [] hin
    simp only [connectedClients, hp, hm', hn]

/-- C6 witness: a backend with no matches resolves to the empty
mapping, and a failure at each of the three query steps aborts with
that step's error. -/
theorem claim_C6_witness :
    connectedClients bEmpty 0 0 = Except.ok [] ∧
    connectedClients bErrPlaces 0 0 = Except.error "e1" ∧
    connectedClients bErrPeople 0 0 = Except.error "e2" ∧
    connectedClients bErrNearby 0 0 = Except.error "e3" :=
  ⟨(claim_C6_empty_and_abort bEmpty 0 0).1 [] rfl (fun _ _ => rfl) rfl,
   (claim_C6_empty_and_abort bErrPlaces 0 0).2.1 "e1" rfl,
   (claim_C6_empty_and_abort bErrPeople 0 0).2.2.1 [] "cc" [] "e2" rfl
     (fun q hq => absurd hq (List.not_mem_nil q)) rfl,
   (claim_C6_empty_and_abort bErrNearby 0 0).2.2.2 ["cc"] "e3" rfl
     (fun _ _ => ⟨["p"], rfl⟩) rfl⟩

/-- C9: when recipient resolution at the message's embedded coordinates
succeeds, each resolved connection ID still in the registry receives
exactly one copy of the original payload carrying that recipient's
matched labels as the injected via field, and a resolved ID absent from
the registry receives nothing. -/
theorem claim_C9_chat_delivery (b : Backend) (registry : List String)
    (m : ChatMsg) (cc : IdMap)
    (h : connectedClients b m.coord0 m.coord1 = Except.ok cc) :
    ∀ cid labels, (cid, labels) ∈ cc →
      ((message b registry m).filter fun s => s.cid == cid) =
        if cid ∈ registry then [ChatSend.mk cid m.raw labels] else [] := by
  intro cid labels hmem
  have hnd := connectedClients_nodupKeys b m.coord0 m.coord1 cc h
  have hmsg : message b registry m =
      cc.filterMap fun p =>
        if p.1 ∈ registry then some (ChatSend.mk p.1 m.raw p.2) else none := by
    simp only [message, h]
  rw [hmsg]
  exact message_filter_core registry m.raw cc hnd cid labels hmem

/-- C9 witness: with u1 and u2 resolved as roaming recipients and only
u1 registered, u1 receives exactly one copy with via = ["roaming"] and
u2 receives nothing. -/
theorem claim_C9_witness :
    ((message bRoamTwo ["u1"] (ChatMsg.mk "hello" 0 0)).filter
        fun s => s.cid == "u1") = [ChatSend.mk "u1" "hello" ["roaming"]] ∧
    ((message bRoamTwo ["u1"] (ChatMsg.mk "hello" 0 0)).filter
        fun s => s.cid == "u2") = [] := by
  have h := claim_C9_chat_delivery bRoamTwo ["u1"] (ChatMsg.mk "hello" 0 0)
    [("u1", ["roaming"]), ("u2", ["roaming"])] rfl
  constructor
  · have h1 := h "u1" ["roaming"] (by simp)
    simpa using h1
  · have h2 := h "u2" ["roaming"] (by simp)
    simpa using h2

/-- C10: the chat handler never excludes the sender: if the sender's
own connection ID appears in the aggregator's result and the sender is
registered, the sender receives a copy of the message like any other
recipient. -/
theorem claim_C10_sender_not_excluded (b : Backend) (registry : List String)
    (m : ChatMsg) (cc : IdMap) (sender : String) (labels : List String)
    (h : connectedClients b m.coord0 m.coord1 = Except.ok cc)
    (h2 : (sender, labels) ∈ cc)
    (h3 : sender ∈ registry) :
    ChatSend.mk sender m.raw labels ∈ message b registry m := by
  have hmsg : message b registry m =
      cc.filterMap fun p =>
        if p.1 ∈ registry then some (ChatSend.mk p.1 m.raw p.2) else none := by
    simp only [message, h]
  rw [hmsg]
  exact List.mem_filterMap.mpr ⟨(sender, labels), h2, by simp [h3]⟩

/-- C10 witness: sender u1, within roaming radius of their own message
point and registered, receives their own chat message. -/
theorem claim_C10_witness :
    ChatSend.mk "u1" "hello" ["roaming"] ∈
      message bRoamTwo ["u1"] (ChatMsg.mk "hello" 0 0) :=
  claim_C10_sender_not_excluded bRoamTwo ["u1"] (ChatMsg.mk "hello" 0 0)
    [("u1", ["roaming"]), ("u2", ["roaming"])] "u1" ["roaming"]
    rfl (by simp) (by simp)

end ProximityChat
